import Mathlib

/-!
Verification development for the DearHassle job-application assistant
(`main.py`).  The Python string and JSON library operations used by the
program are embedded as executable Lean functions over `List Char` /
`String`, and the program functions (`generate_linkedin_message`,
`generate_email`, `generate_cv_content`, `extract_job_info`,
`save_config` / `load_config`, `ensure_templates_in_config`,
`save_api_key`) are translated from the source.  Stateful behaviour
(files, the model endpoint) is made explicit: file contents are passed
as `Option String` values and the model reply is a parameter.
-/

set_option linter.unusedVariables false
set_option maxRecDepth 8000

/-! ## Python string primitives -/

/-- Length of a string in characters (Python `len`). -/
def plen (s : String) : Nat := s.data.length

/-- Index of the first occurrence of `sep` in `s` (`None` if absent).
Mirrors the search underlying Python `str.split` / `str.find`. -/
def findSub (sep : List Char) : List Char → Option Nat
  | [] => if sep.isPrefixOf ([] : List Char) then some 0 else none
  | c :: rest =>
    if sep.isPrefixOf (c :: rest) then some 0
    else (findSub sep rest).map (· + 1)

/-- Fuel-driven worker for `pySplitL`: repeatedly cut at the first
occurrence of `sep`.  With fuel `> s.length` this is exactly Python
`str.split` on a non-empty separator. -/
def pySplitF (sep : List Char) : Nat → List Char → List (List Char)
  | 0, s => [s]
  | fuel+1, s =>
    match findSub sep s with
    | none => [s]
    | some i => s.take i :: pySplitF sep fuel (s.drop (i + sep.length))

/-- Python `str.split(sep)` on character lists (for non-empty `sep`). -/
def pySplitL (sep s : List Char) : List (List Char) :=
  pySplitF sep (s.length + 1) s

/-- Python `str.split(sep)` on strings (for non-empty `sep`). -/
def pySplitS (sep s : String) : List String :=
  (pySplitL sep.data s.data).map String.mk

/-- Number of non-overlapping occurrences of `sep` in `s`
(Python `str.count` for a non-empty separator). -/
def countSub (sep s : String) : Nat := (pySplitS sep s).length - 1

/-- Text strictly before the first occurrence of `sep` (all of `s` when
`sep` does not occur).  Specification-side description of a split. -/
def textBefore (sep s : String) : String :=
  match findSub sep.data s.data with
  | none => s
  | some i => String.mk (s.data.take i)

/-- Text strictly after the first occurrence of `sep` (empty when `sep`
does not occur).  Specification-side description of a split. -/
def textAfterFirst (sep s : String) : String :=
  match findSub sep.data s.data with
  | none => ""
  | some i => String.mk (s.data.drop (i + sep.data.length))

/-- Characters removed from both ends by Python `str.strip()` with no
arguments (ASCII whitespace; exotic Unicode spaces are not modelled). -/
def pyIsSpace (c : Char) : Bool :=
  c = ' ' || c = '\t' || c = '\n' || c = '\r' || c = '\x0b' || c = '\x0c'

/-- Drop characters satisfying `p` from both ends of a list. -/
def stripList (p : Char → Bool) (l : List Char) : List Char :=
  ((l.dropWhile p).reverse.dropWhile p).reverse

/-- Python `str.strip()` (no arguments). -/
def pyStrip (s : String) : String := String.mk (stripList pyIsSpace s.data)

/-- Python `str.strip(chars)`: remove any character from `cs` from both
ends. -/
def pyStripChars (cs : List Char) (s : String) : String :=
  String.mk (stripList (fun c => cs.contains c) s.data)

/-- Python `str.replace(old, new)` for non-empty `old`, via the identity
`s.replace(old, new) = new.join(s.split(old))`. -/
def pyReplace (old new s : String) : String :=
  String.intercalate new (pySplitS old s)

/-- Scan a `str.format` replacement field: the characters up to the next
`\x7d`.  A stray `\x7b` inside a field, or a missing closing brace, is a
format error. -/
def scanPlaceholder : List Char → Option (List Char × List Char)
  | [] => none
  | c :: rest =>
    if c = '}' then some ([], rest)
    else if c = '{' then none
    else (scanPlaceholder rest).map (fun pr => (c :: pr.1, pr.2))

/-- Fuel-driven worker for `pyFormat`.  Models Python `str.format(**d)`
restricted to simple named fields: `\x7b\x7b` and `\x7d\x7d` are brace
escapes, `\x7bname\x7d` substitutes the value bound to `name`, and a
lone `\x7d`, an unterminated field, or an unknown name is an error
(`none`).  Conversion and format-spec suffixes (`!r`, `:>10`) are not
modelled; the templates of this program use only plain names. -/
def pyFormatAux (dict : List (String × String)) : Nat → List Char → Option (List Char)
  | 0, _ => none
  | _+1, [] => some []
  | fuel+1, c :: rest =>
    if c = '{' then
      match rest with
      | '{' :: rest2 => (pyFormatAux dict fuel rest2).map (fun t => '{' :: t)
      | _ =>
        match scanPlaceholder rest with
        | none => none
        | some (nm, r) =>
          match List.lookup (String.mk nm) dict with
          | none => none
          | some v => (pyFormatAux dict fuel r).map (fun t => v.data ++ t)
    else if c = '}' then
      match rest with
      | '}' :: rest2 => (pyFormatAux dict fuel rest2).map (fun t => '}' :: t)
      | _ => none
    else (pyFormatAux dict fuel rest).map (fun t => c :: t)

/-- Python `template.format(**dict)` returning `none` on any
substitution error. -/
def pyFormat (template : String) (dict : List (String × String)) : Option String :=
  (pyFormatAux dict (template.data.length + 1) template.data).map String.mk

/-! ## Data model -/

/-- The seven string fields extracted from a job description
(`job_info` dict in `main.py`). -/
structure JobInfo where
  company_name : String
  position_title : String
  hiring_manager_name : String
  specific_work : String
  required_skills : String
  company_mission : String
  candidate_matches : String
deriving Repr, DecidableEq

/-- The seven personal-information fields of the config
(`config['personal_info']`). -/
structure PersonalInfo where
  full_name : String
  location : String
  phone : String
  email : String
  linkedin : String
  portfolio : String
  github : String
deriving Repr, DecidableEq

/-- The message templates of the config (`config['templates']`). -/
structure Templates where
  email_subject : String
  email_body : String
  linkedin : String
deriving Repr, DecidableEq

/-- A config record of the shape described in spec §3. -/
structure Config where
  personal_info : PersonalInfo
  resume_path : String
  templates : Templates
  model : String
deriving Repr, DecidableEq

/-- The three narrative cover-letter sections (`cv_content` dict). -/
structure CvContent where
  about_me : String
  why_company : String
  why_me : String
deriving Repr, DecidableEq

/-! ## Template renderer (`generate_linkedin_message`, `generate_email`) -/

/-- Derived first-skill field of `generate_linkedin_message`:
`job_info['required_skills'].split('<br/>')[0].strip('• ')`. -/
def firstSkill (required_skills : String) : String :=
  pyStripChars ['•', ' '] ((pySplitS "<br/>" required_skills).headD "")

/-- Format dictionary built by `generate_linkedin_message`:
`\x7b**job_info, **config['personal_info'], 'required_skills': first-skill\x7d`.
The two field-name sets are disjoint; the `required_skills` entry is the
derived first skill. -/
def linkedin_format_dict (ji : JobInfo) (pi : PersonalInfo) : List (String × String) :=
  [("company_name", ji.company_name),
   ("position_title", ji.position_title),
   ("hiring_manager_name", ji.hiring_manager_name),
   ("specific_work", ji.specific_work),
   ("required_skills", firstSkill ji.required_skills),
   ("company_mission", ji.company_mission),
   ("candidate_matches", ji.candidate_matches),
   ("full_name", pi.full_name),
   ("location", pi.location),
   ("phone", pi.phone),
   ("email", pi.email),
   ("linkedin", pi.linkedin),
   ("portfolio", pi.portfolio),
   ("github", pi.github)]

/-- Format dictionary built by `generate_email`:
`\x7b**job_info, **config['personal_info']\x7d`. -/
def email_format_dict (ji : JobInfo) (pi : PersonalInfo) : List (String × String) :=
  [("company_name", ji.company_name),
   ("position_title", ji.position_title),
   ("hiring_manager_name", ji.hiring_manager_name),
   ("specific_work", ji.specific_work),
   ("required_skills", ji.required_skills),
   ("company_mission", ji.company_mission),
   ("candidate_matches", ji.candidate_matches),
   ("full_name", pi.full_name),
   ("location", pi.location),
   ("phone", pi.phone),
   ("email", pi.email),
   ("linkedin", pi.linkedin),
   ("portfolio", pi.portfolio),
   ("github", pi.github)]

/-- Fallback LinkedIn message returned on any exception in
`generate_linkedin_message`. -/
def linkedin_fallback (ji : JobInfo) : String :=
  "Hi! I\x27m interested in the " ++ ji.position_title ++ " role at " ++
    ji.company_name ++ ". Looking forward to connecting!"

/-- The `generate_linkedin_message` function: substitute the template,
truncate to 197 characters plus `...` when longer than 200 characters,
and fall back to a fixed message on a substitution error. -/
def generate_linkedin_message (ji : JobInfo) (cfg : Config) : String :=
  match pyFormat cfg.templates.linkedin (linkedin_format_dict ji cfg.personal_info) with
  | some message =>
    if 200 < plen message then String.mk (message.data.take 197) ++ "..." else message
  | none => linkedin_fallback ji

/-- Fallback email subject and body returned on any exception in
`generate_email`. -/
def email_fallback (ji : JobInfo) (pi : PersonalInfo) : String × String :=
  ("Follow-Up on " ++ ji.position_title ++ " Application",
   "Hi " ++ ji.hiring_manager_name ++ ",\n\nFollowing up on my " ++
     ji.position_title ++ " application.\n\nBest,\n" ++ pi.full_name)

/-- The `generate_email` function: substitute subject and body
templates, falling back to fixed strings on a substitution error. -/
def generate_email (ji : JobInfo) (cfg : Config) : String × String :=
  match pyFormat cfg.templates.email_subject (email_format_dict ji cfg.personal_info),
        pyFormat cfg.templates.email_body (email_format_dict ji cfg.personal_info) with
  | some subject, some body => (subject, body)
  | _, _ => email_fallback ji cfg.personal_info

/-! ## CV-content splitting (`generate_cv_content`) -/

/-- Fallback CV content returned on any exception in
`generate_cv_content`. -/
def default_cv_content : CvContent :=
  { about_me := "Default about me section"
    why_company := "Default why company section"
    why_me := "• Default bullet point 1\n• Default bullet point 2\n• Default bullet point 3\n• Default bullet point 4\n• Default bullet point 5" }

/-- The deterministic part of `generate_cv_content`: split the model
reply on the literal markers.  The argument is the model reply
(`none` when the completion call itself raised).  Mirrors
`content.split('why_company')[0].replace('about_me:', '').strip()`,
`content.split('why_company:')[1].split('why_me:')[0].strip()` and
`content.split('why_me:')[1].strip()`; an out-of-range `[1]` raises and
is recovered as the default content. -/
def generate_cv_content : Option String → CvContent
  | none => default_cv_content
  | some content =>
    match pySplitS "why_company:" content, pySplitS "why_me:" content with
    | _ :: s1 :: _, _ :: s2 :: _ =>
      { about_me := pyStrip (pyReplace "about_me:" "" ((pySplitS "why_company" content).headD ""))
        why_company := pyStrip ((pySplitS "why_me:" s1).headD "")
        why_me := pyStrip s2 }
    | _, _ => default_cv_content

/-! ## JSON values

A JSON value type with mutual (non-nested) lists so that all recursions
stay structural.  Numbers are modelled as integers only: none of the
JSON handled by this program (job-info objects, the config file)
contains numbers, and float parsing is out of scope. -/

mutual
inductive Json where
  | null : Json
  | bool (b : Bool) : Json
  | num (n : Int) : Json
  | str (s : String) : Json
  | arr (xs : JsonList) : Json
  | obj (kvs : JsonMembers) : Json
inductive JsonList where
  | nil : JsonList
  | cons (hd : Json) (tl : JsonList) : JsonList
inductive JsonMembers where
  | nil : JsonMembers
  | cons (k : String) (v : Json) (tl : JsonMembers) : JsonMembers
end

deriving instance DecidableEq for Json
deriving instance DecidableEq for JsonList
deriving instance DecidableEq for JsonMembers

/-- Concatenation of member lists. -/
def JsonMembers.append : JsonMembers → JsonMembers → JsonMembers
  | .nil, ms => ms
  | .cons k v tl, ms => .cons k v (tl.append ms)

/-- Concatenation of element lists. -/
def JsonList.append : JsonList → JsonList → JsonList
  | .nil, xs => xs
  | .cons v tl, xs => .cons v (tl.append xs)

/-! ## JSON parsing (`json.loads`) -/

/-- JSON insignificant whitespace. -/
def jsonWs (c : Char) : Bool :=
  c = ' ' || c = '\t' || c = '\n' || c = '\r'

/-- Skip insignificant whitespace. -/
def skipWs : List Char → List Char
  | [] => []
  | c :: rest => if jsonWs c then skipWs rest else c :: rest

/-- Value of a hexadecimal digit character. -/
def hexVal (c : Char) : Option Nat :=
  if '0' ≤ c ∧ c ≤ '9' then some (c.toNat - 48)
  else if 'a' ≤ c ∧ c ≤ 'f' then some (c.toNat - 87)
  else if 'A' ≤ c ∧ c ≤ 'F' then some (c.toNat - 55)
  else none

/-- Decode a UTF-16 surrogate pair whose high half `m` has already
been read; `m2` is the value of the second `\uXXXX` escape. -/
def decodeUPair (m m2 : Nat) (r3 : List Char) : Option (Char × List Char) :=
  if 0xdc00 ≤ m2 ∧ m2 ≤ 0xdfff then
    some (Char.ofNat (0x10000 + (m - 0xd800) * 0x400 + (m2 - 0xdc00)), r3)
  else none

/-- Decode the code point `m` of a `\uXXXX` escape: a high surrogate
must be followed by a second `\uXXXX` low-surrogate escape; a lone low
surrogate is rejected (a Lean `Char` cannot represent it; Python would
build a degenerate `str`). -/
def decodeUVal (m : Nat) (r2 : List Char) : Option (Char × List Char) :=
  if 0xd800 ≤ m ∧ m ≤ 0xdbff then
    match r2 with
    | b1 :: b2 :: g3 :: g2 :: g1 :: g0 :: r3 =>
      if b1 = '\\' ∧ b2 = 'u' then
        match hexVal g3, hexVal g2, hexVal g1, hexVal g0 with
        | some a2, some b3, some c3, some d2 =>
          decodeUPair m (4096 * a2 + 256 * b3 + 16 * c3 + d2) r3
        | _, _, _, _ => none
      else none
    | _ => none
  else if 0xdc00 ≤ m ∧ m ≤ 0xdfff then none
  else some (Char.ofNat m, r2)

/-- Decode the four hex digits of a `\uXXXX` escape. -/
def decodeU : List Char → Option (Char × List Char)
  | h3 :: h2 :: h1 :: h0 :: r2 =>
    match hexVal h3, hexVal h2, hexVal h1, hexVal h0 with
    | some a, some b, some c2, some d =>
      decodeUVal (4096 * a + 256 * b + 16 * c2 + d) r2
    | _, _, _, _ => none
  | _ => none

/-- Decode one backslash escape of a JSON string literal (the
characters after the backslash). -/
def decodeEsc : List Char → Option (Char × List Char)
  | [] => none
  | e :: r =>
    if e = '"' then some ('"', r)
    else if e = '\\' then some ('\\', r)
    else if e = '/' then some ('/', r)
    else if e = 'n' then some ('\n', r)
    else if e = 'r' then some ('\r', r)
    else if e = 't' then some ('\t', r)
    else if e = 'b' then some ('\x08', r)
    else if e = 'f' then some ('\x0c', r)
    else if e = 'u' then decodeU r
    else none

/-- Body of a JSON string literal, after the opening quote: scan until
the closing quote, decoding backslash escapes via `decodeEsc`.  Raw
control characters are rejected, as in Python `json.loads` strict
mode.  Each step consumes at least one character, so fuel
`s.length + 1` is always sufficient. -/
def parseStrAux : Nat → List Char → List Char → Option (String × List Char)
  | 0, _, _ => none
  | fuel+1, acc, s =>
    match s with
    | [] => none
    | c :: rest =>
      if c = '"' then some (String.mk acc.reverse, rest)
      else if c = '\\' then
        match decodeEsc rest with
        | some (ch, r2) => parseStrAux fuel (ch :: acc) r2
        | none => none
      else if c.toNat < 0x20 then none
      else parseStrAux fuel (c :: acc) rest

/-- Numeric value of a digit string. -/
def digitsVal (ds : List Char) : Nat :=
  ds.foldl (fun a c => 10 * a + (c.toNat - 48)) 0

/-- Parse a JSON natural-number literal (digits, no leading zero).
A fractional part or exponent is not modelled and rejects. -/
def parseNatLit (s : List Char) : Option (Nat × List Char) :=
  let ds := s.takeWhile Char.isDigit
  let rest := s.dropWhile Char.isDigit
  if ds.isEmpty then none
  else if ds.head? = some '0' ∧ 1 < ds.length then none
  else
    match rest with
    | '.' :: _ => none
    | 'e' :: _ => none
    | 'E' :: _ => none
    | _ => some (digitsVal ds, rest)

/-- Parse a JSON number (integers only). -/
def parseNumber (s : List Char) : Option (Json × List Char) :=
  match s with
  | '-' :: rest => (parseNatLit rest).map (fun p => (.num (-(p.1 : Int)), p.2))
  | _ => (parseNatLit s).map (fun p => (.num (p.1 : Int), p.2))

mutual
/-- Recursive-descent JSON value parser.  Fuel decreases at every
nesting step; since each step consumes at least one input character,
fuel `s.length + 1` is always sufficient. -/
def parseValue : Nat → List Char → Option (Json × List Char)
  | 0, _ => none
  | fuel+1, s =>
    match skipWs s with
    | [] => none
    | c :: rest =>
      if c = '{' then
        match skipWs rest with
        | [] => parseMembers fuel [] .nil
        | c2 :: r =>
          if c2 = '}' then some (.obj .nil, r) else parseMembers fuel (c2 :: r) .nil
      else if c = '[' then
        match skipWs rest with
        | [] => parseElems fuel [] .nil
        | c2 :: r =>
          if c2 = ']' then some (.arr .nil, r) else parseElems fuel (c2 :: r) .nil
      else if c = '"' then
        (parseStrAux (rest.length + 1) [] rest).map (fun p => (.str p.1, p.2))
      else if c = 'n' then
        match rest with
        | 'u' :: 'l' :: 'l' :: r => some (.null, r)
        | _ => none
      else if c = 't' then
        match rest with
        | 'r' :: 'u' :: 'e' :: r => some (.bool true, r)
        | _ => none
      else if c = 'f' then
        match rest with
        | 'a' :: 'l' :: 's' :: 'e' :: r => some (.bool false, r)
        | _ => none
      else parseNumber (c :: rest)

/-- Parse the members of a JSON object after its opening brace (the
empty-object case is handled by `parseValue`). -/
def parseMembers : Nat → List Char → JsonMembers → Option (Json × List Char)
  | 0, _, _ => none
  | fuel+1, s, acc =>
    match skipWs s with
    | [] => none
    | c :: rest =>
      if c = '"' then
        match parseStrAux (rest.length + 1) [] rest with
        | none => none
        | some (key, r1) =>
          match skipWs r1 with
          | [] => none
          | c2 :: r2 =>
            if c2 = ':' then
              match parseValue fuel r2 with
              | none => none
              | some (v, r3) =>
                match skipWs r3 with
                | [] => none
                | c3 :: r4 =>
                  if c3 = ',' then parseMembers fuel r4 (acc.append (.cons key v .nil))
                  else if c3 = '}' then some (.obj (acc.append (.cons key v .nil)), r4)
                  else none
            else none
      else none

/-- Parse the elements of a JSON array after its opening bracket (the
empty-array case is handled by `parseValue`). -/
def parseElems : Nat → List Char → JsonList → Option (Json × List Char)
  | 0, _, _ => none
  | fuel+1, s, acc =>
    match parseValue fuel s with
    | none => none
    | some (v, r1) =>
      match skipWs r1 with
      | [] => none
      | c :: r2 =>
        if c = ',' then parseElems fuel r2 (acc.append (.cons v .nil))
        else if c = ']' then some (.arr (acc.append (.cons v .nil)), r2)
        else none
end

/-- Python `json.loads`: parse one JSON document, requiring only
whitespace after it. -/
def json_loads (s : String) : Option Json :=
  match parseValue (s.data.length + 1) s.data with
  | some (v, rest) => if skipWs rest = [] then some v else none
  | none => none

/-! ## JSON serialization (`json.dump(config, f, indent=4)`) -/

/-- Hexadecimal digit character (lowercase, as produced by Python). -/
def hexDig (n : Nat) : Char :=
  Char.ofNat (if n < 10 then 48 + n else 87 + n)

/-- Four-digit lowercase hexadecimal rendering of `n < 0x10000`. -/
def hex4 (n : Nat) : List Char :=
  [hexDig (n / 4096 % 16), hexDig (n / 256 % 16), hexDig (n / 16 % 16), hexDig (n % 16)]

/-- Escape one character as Python `json.dumps` does with its default
`ensure_ascii=True`: named escapes for the common control characters,
`\uXXXX` for other control or non-ASCII characters, and UTF-16
surrogate pairs for characters beyond the basic multilingual plane. -/
def escChar (c : Char) : List Char :=
  if c = '"' then ['\\', '"']
  else if c = '\\' then ['\\', '\\']
  else if c = '\n' then ['\\', 'n']
  else if c = '\r' then ['\\', 'r']
  else if c = '\t' then ['\\', 't']
  else if c = '\x08' then ['\\', 'b']
  else if c = '\x0c' then ['\\', 'f']
  else if 0x20 ≤ c.toNat ∧ c.toNat ≤ 0x7e then [c]
  else if c.toNat < 0x10000 then '\\' :: 'u' :: hex4 c.toNat
  else
    ('\\' :: 'u' :: hex4 (0xd800 + (c.toNat - 0x10000) / 0x400)) ++
      ('\\' :: 'u' :: hex4 (0xdc00 + (c.toNat - 0x10000) % 0x400))

/-- Escape a character list as a JSON string body. -/
def escList : List Char → List Char
  | [] => []
  | c :: rest => escChar c ++ escList rest

/-- Indentation for `indent=4` pretty printing. -/
def jsonIndent (lvl : Nat) : List Char := List.replicate (4 * lvl) ' '

/-- Decimal digits of a natural number (fuel-driven; fuel `n + 1` is
always sufficient). -/
def natDigits : Nat → Nat → List Char
  | 0, _ => []
  | fuel+1, n => if n < 10 then [hexDig n] else natDigits fuel (n / 10) ++ [hexDig (n % 10)]

/-- Decimal rendering of an integer (numbers never occur in the JSON
this program writes; present for totality). -/
def intRepr (n : Int) : List Char :=
  if n < 0 then '-' :: natDigits (n.natAbs + 1) n.natAbs
  else natDigits (n.natAbs + 1) n.natAbs

mutual
/-- Serialize a JSON value as Python `json.dump(v, f, indent=4)` does,
at nesting level `lvl`. -/
def dumpJson : Nat → Json → List Char
  | _, .null => ['n', 'u', 'l', 'l']
  | _, .bool true => ['t', 'r', 'u', 'e']
  | _, .bool false => ['f', 'a', 'l', 's', 'e']
  | _, .num n => intRepr n
  | _, .str s => '"' :: (escList s.data ++ ['"'])
  | _, .obj .nil => ['{', '}']
  | lvl, .obj (.cons k v tl) =>
    '{' :: '\n' :: (jsonIndent (lvl + 1) ++ dumpMembers (lvl + 1) (.cons k v tl) ++
      ('\n' :: (jsonIndent lvl ++ ['}'])))
  | _, .arr .nil => ['[', ']']
  | lvl, .arr (.cons v tl) =>
    '[' :: '\n' :: (jsonIndent (lvl + 1) ++ dumpElems (lvl + 1) (.cons v tl) ++
      ('\n' :: (jsonIndent lvl ++ [']'])))

/-- Serialize non-empty object members, separated by `,` plus a newline
and the indentation of level `lvl`. -/
def dumpMembers : Nat → JsonMembers → List Char
  | _, .nil => []
  | lvl, .cons k v .nil =>
    '"' :: (escList k.data ++ ('"' :: ':' :: ' ' :: dumpJson lvl v))
  | lvl, .cons k v (.cons k2 v2 tl) =>
    '"' :: (escList k.data ++ ('"' :: ':' :: ' ' :: dumpJson lvl v ++
      (',' :: '\n' :: (jsonIndent lvl ++ dumpMembers lvl (.cons k2 v2 tl)))))

/-- Serialize non-empty array elements, separated by `,` plus a newline
and the indentation of level `lvl`. -/
def dumpElems : Nat → JsonList → List Char
  | _, .nil => []
  | lvl, .cons v .nil => dumpJson lvl v
  | lvl, .cons v (.cons v2 tl) =>
    dumpJson lvl v ++ (',' :: '\n' :: (jsonIndent lvl ++ dumpElems lvl (.cons v2 tl)))
end

/-- The `save_config` function: serialize the config dict and rewrite
the whole config file (`json.dump(config, f, indent=4)`).  The result
is the file contents written. -/
def save_config (j : Json) : String := String.mk (dumpJson 0 j)

/-! ## Information extractor (`extract_job_info`) -/

/-- Python `content.find(ch)`: index of the first occurrence, `-1` if
absent. -/
def pyFindChar (s : String) (ch : Char) : Int :=
  match findSub [ch] s.data with
  | some i => (i : Int)
  | none => -1

/-- Python `content.rfind(ch)`: index of the last occurrence, `-1` if
absent. -/
def pyRfindChar (s : String) (ch : Char) : Int :=
  match findSub [ch] s.data.reverse with
  | some i => (s.data.length : Int) - 1 - (i : Int)
  | none => -1

/-- Python slice `s[a:b]` (step 1), with negative indices counted from
the end and out-of-range bounds clamped. -/
def pySlice (s : String) (a b : Int) : String :=
  let n : Int := (s.data.length : Int)
  let a2 := if a < 0 then max (n + a) 0 else min a n
  let b2 := if b < 0 then max (n + b) 0 else min b n
  String.mk ((s.data.take b2.toNat).drop a2.toNat)

/-- The fixed placeholder job info returned by `extract_job_info` on
any failure. -/
def placeholder_job_info : Json :=
  .obj (.cons "company_name" (.str "Company Name")
    (.cons "position_title" (.str "Position Title")
      (.cons "hiring_manager_name" (.str "Hiring Manager")
        (.cons "specific_work" (.str "contribute to the team\x27s projects")
          (.cons "required_skills" (.str "• Required skill 1<br/>• Required skill 2<br/>• Required skill 3")
            (.cons "company_mission" (.str "company mission and values")
              (.cons "candidate_matches" (.str "• Match 1<br/>• Match 2<br/>• Match 3<br/>• Match 4<br/>• Match 5")
                .nil)))))))

/-- The deterministic part of `extract_job_info`: its argument is the
model reply (`none` when the completion call itself raised, e.g. a
network, auth or rate-limit error).  Try `json.loads` on the whole
reply; on failure parse the slice from the first `\x7b` to the last
`\x7d`; any remaining failure is caught by the outer handler, which
returns the placeholder job info. -/
def extract_job_info (reply : Option String) : Json :=
  match reply with
  | none => placeholder_job_info
  | some content =>
    match json_loads content with
    | some j => j
    | none =>
      if 0 ≤ pyFindChar content '{' ∧ pyFindChar content '{' < pyRfindChar content '}' + 1 then
        match json_loads (pySlice content (pyFindChar content '{') (pyRfindChar content '}' + 1)) with
        | some j => j
        | none => placeholder_job_info
      else placeholder_job_info

/-! ## Config store (`load_config`, `save_config`, `ensure_templates_in_config`) -/

/-- The `DEFAULT_CONFIG` record of `main.py`. -/
def DEFAULT_CONFIG : Config :=
  { personal_info :=
      { full_name := "Your Name"
        location := "City, Country"
        phone := "123-456-7890"
        email := "email@example.com"
        linkedin := "https://linkedin.com/in/username"
        portfolio := "https://yourportfolio.com"
        github := "https://github.com/username" }
    resume_path := "resume_context.txt"
    templates :=
      { email_subject := "Application Follow-Up - {position_title} Position"
        email_body := "Dear {hiring_manager_name},\n\nI\x27m writing to follow up on my application for the {position_title} position at {company_name}.\n\nBest regards,\n{full_name}"
        linkedin := "Hello! I\x27m interested in the {position_title} opportunity at {company_name}." }
    model := "gpt-4o" }

/-- The JSON document a `Config` record is stored as, with the field
order of `DEFAULT_CONFIG`. -/
def configToJson (c : Config) : Json :=
  .obj (.cons "personal_info"
      (.obj (.cons "full_name" (.str c.personal_info.full_name)
        (.cons "location" (.str c.personal_info.location)
          (.cons "phone" (.str c.personal_info.phone)
            (.cons "email" (.str c.personal_info.email)
              (.cons "linkedin" (.str c.personal_info.linkedin)
                (.cons "portfolio" (.str c.personal_info.portfolio)
                  (.cons "github" (.str c.personal_info.github) .nil))))))))
    (.cons "resume_path" (.str c.resume_path)
      (.cons "templates"
          (.obj (.cons "email"
              (.obj (.cons "subject" (.str c.templates.email_subject)
                (.cons "body" (.str c.templates.email_body) .nil)))
            (.cons "linkedin" (.str c.templates.linkedin) .nil)))
        (.cons "model" (.str c.model) .nil))))

/-- The `load_config` function on an explicit file state: a present
file is parsed with `json.load` (a parse error propagates, modelled as
`Except.error`); a missing file is replaced by the default config,
which is also written back.  The second component is the file write
performed, if any. -/
def load_config : Option String → Except Unit Json × Option String
  | none => (.ok (configToJson DEFAULT_CONFIG), some (save_config (configToJson DEFAULT_CONFIG)))
  | some text =>
    match json_loads text with
    | some j => (.ok j, none)
    | none => (.error (), none)

/-- Membership test for a key in a JSON object dict
(Python `'templates' in config`). -/
def hasKeyM (k : String) : JsonMembers → Bool
  | .nil => false
  | .cons a _ tl => a = k || hasKeyM k tl

/-- Lookup of a key in a JSON object dict (Python `config[k]`). -/
def lookupM (k : String) : JsonMembers → Option Json
  | .nil => none
  | .cons a v tl => if a = k then some v else lookupM k tl

/-- Python dict assignment `config[k] = v`: replace the binding in
place if the key exists, otherwise append it at the end. -/
def setKeyM (k : String) (v : Json) : JsonMembers → JsonMembers
  | .nil => .cons k v .nil
  | .cons a b tl => if a = k then .cons a v tl else .cons a b (setKeyM k v tl)

/-- The default templates that `ensure_templates_in_config` inserts
when the `templates` key is missing. -/
def default_templates_json : Json :=
  .obj (.cons "email"
      (.obj (.cons "subject" (.str "Follow-Up on {position_title} Application")
        (.cons "body" (.str "Hi {hiring_manager_name},\n\nI hope you are doing well. I recently applied for the {position_title} position, and wanted to check in on your decision timeline. I am very excited about the opportunity to join {company_name} and help {specific_work}\n\nI understand how busy you probably are and want to thank you in advance for considering my application. Please let me know if I can provide any additional information.\n\nI look forward to hearing from you soon.\n\nSincerely,\n{full_name}") .nil)))
    (.cons "linkedin" (.str "Hi! I\x27m interested in the {position_title} role at {company_name}. My background includes {required_skills}. Looking forward to connecting!") .nil))

/-- The `ensure_templates_in_config` function: when the config already
has a `templates` key it is returned unchanged and nothing is written;
otherwise the default templates are added and the updated config saved.
The second component is the file write performed, if any. -/
def ensure_templates_in_config (config : JsonMembers) : JsonMembers × Option String :=
  if hasKeyM "templates" config then (config, none)
  else
    let config2 := setKeyM "templates" default_templates_json config
    (config2, some (save_config (.obj config2)))

/-! ## Credential file (`save_api_key`) -/

/-- Worker for `pyReadLines`. -/
def readLinesAux (acc : List Char) : List Char → List String
  | [] => if acc.isEmpty then [] else [String.mk acc.reverse]
  | c :: rest =>
    if c = '\n' then String.mk (acc.reverse ++ ['\n']) :: readLinesAux [] rest
    else readLinesAux (c :: acc) rest

/-- Python `f.readlines()`: split into lines, each keeping its
terminating newline (the final line may lack one). -/
def pyReadLines (s : String) : List String := readLinesAux [] s.data

/-- Python `str.startswith(pre)`. -/
def strStartsWith (s pre : String) : Bool := pre.data.isPrefixOf s.data

/-- The update loop of `save_api_key`: replace the first line starting
with `OPENAI_API_KEY=` by the new key line; if no line matches, append
the new key line at the end. -/
def updateKeyLines (key : String) : List String → List String
  | [] => ["OPENAI_API_KEY=" ++ key ++ "\n"]
  | l :: ls =>
    if strStartsWith l "OPENAI_API_KEY=" then ("OPENAI_API_KEY=" ++ key ++ "\n") :: ls
    else l :: updateKeyLines key ls

/-- Concatenation of a list of strings (Python `f.writelines`). -/
def strConcat : List String → String
  | [] => ""
  | l :: ls => l ++ strConcat ls

/-- The `save_api_key` function on an explicit `.env` file state
(`none` when the file does not exist); the result is the file contents
written (`f.writelines` concatenates the lines). -/
def save_api_key (env : Option String) (api_key : String) : String :=
  match env with
  | none => "OPENAI_API_KEY=" ++ api_key ++ "\n"
  | some contents => strConcat (updateKeyLines api_key (pyReadLines contents))

/-- Worker for `linesOf`. -/
def linesOfAux (acc : List Char) : List Char → List String
  | [] => if acc.isEmpty then [] else [String.mk acc.reverse]
  | c :: rest =>
    if c = '\n' then String.mk acc.reverse :: linesOfAux [] rest
    else linesOfAux (c :: acc) rest

/-- The lines of a file, without terminators (the claim-side view of a
file as a list of lines). -/
def linesOf (s : String) : List String := linesOfAux [] s.data

/-- Claim-side description of the `save_api_key` update: rewrite only
the first line starting with `OPENAI_API_KEY=`, or append such a line
at the end when none matches; all lines here are terminator-free. -/
def claimKeyUpdate (key : String) : List String → List String
  | [] => ["OPENAI_API_KEY=" ++ key]
  | l :: ls =>
    if strStartsWith l "OPENAI_API_KEY=" then ("OPENAI_API_KEY=" ++ key) :: ls
    else l :: claimKeyUpdate key ls

/-! ## Example inputs used by the witnesses -/

/-- Sample personal info. -/
def exPI : PersonalInfo :=
  { full_name := "Jane", location := "Paris", phone := "555", email := "j@x.com",
    linkedin := "li", portfolio := "po", github := "gh" }

/-- Sample job info. -/
def exJI : JobInfo :=
  { company_name := "Acme", position_title := "Engineer", hiring_manager_name := "Max",
    specific_work := "build tools", required_skills := "• Go<br/>• Rust<br/>• C++",
    company_mission := "ship", candidate_matches := "• M1<br/>• M2" }

/-- Job info with a long position title (for length counterexamples). -/
def exJIlong : JobInfo :=
  { company_name := "C", position_title := String.mk (List.replicate 140 'a'),
    hiring_manager_name := "H", specific_work := "w", required_skills := "s",
    company_mission := "m", candidate_matches := "c" }

/-- Config whose templates use only recognized placeholders. -/
def exCfgOk : Config :=
  { personal_info := exPI, resume_path := "r",
    templates := { email_subject := "S {position_title}", email_body := "B {full_name}",
                   linkedin := "L {company_name}" },
    model := "gpt-4o" }

/-- Config whose templates reference an unrecognized placeholder. -/
def exCfgBad : Config :=
  { personal_info := exPI, resume_path := "r",
    templates := { email_subject := "{oops}", email_body := "{oops}",
                   linkedin := "{oops}" },
    model := "gpt-4o" }

/-- Config whose LinkedIn template is a 210-character literal. -/
def exCfgLong : Config :=
  { personal_info := exPI, resume_path := "r",
    templates := { email_subject := "S", email_body := "B",
                   linkedin := String.mk (List.replicate 210 'x') },
    model := "gpt-4o" }

/-! ## Helper lemmas -/

theorem lookupM_setKeyM_self (k : String) (v : Json) :
    ∀ m : JsonMembers, lookupM k (setKeyM k v m) = some v
  | .nil => by simp [setKeyM, lookupM]
  | .cons a b tl => by
    by_cases h : a = k
    · simp [setKeyM, lookupM, h]
    · simp [setKeyM, lookupM, h, lookupM_setKeyM_self k v tl]

theorem lookupM_setKeyM_ne (k k2 : String) (v : Json) (h : k2 ≠ k) :
    ∀ m : JsonMembers, lookupM k2 (setKeyM k v m) = lookupM k2 m
  | .nil => by
    have hk : ¬k = k2 := fun h2 => h (Eq.symm h2)
    simp [setKeyM, lookupM, hk]
  | .cons a b tl => by
    by_cases ha : a = k
    · subst ha
      have hk : ¬a = k2 := fun h2 => h (Eq.symm h2)
      simp [setKeyM, lookupM, hk]
    · simp [setKeyM, lookupM, ha, lookupM_setKeyM_ne k k2 v h tl]

/-! ## C6: derived first skill -/

/-- C6: for every JobInfo whose `required_skills` equals
`"• Go<br/>• Rust<br/>• C++"`, the derived value substituted for the
`required_skills` placeholder in the short networking message (split on
`<br/>`, first element, bullet marker and spaces stripped) equals
`"Go"`. -/
theorem linkedin_first_skill_go (ji : JobInfo) (pi : PersonalInfo)
    (h : ji.required_skills = "• Go<br/>• Rust<br/>• C++") :
    List.lookup "required_skills" (linkedin_format_dict ji pi) = some "Go" := by
  have hl : List.lookup "required_skills" (linkedin_format_dict ji pi)
      = some (firstSkill ji.required_skills) := rfl
  rw [hl, h]
  decide

/-- Witness for C6 at a concrete job info. -/
theorem linkedin_first_skill_go_witness :
    exJI.required_skills = "• Go<br/>• Rust<br/>• C++" ∧
    List.lookup "required_skills" (linkedin_format_dict exJI exPI) = some "Go" :=
  ⟨by decide, linkedin_first_skill_go exJI exPI (by decide)⟩

/-! ## C5: extractor failure fallback -/

/-- C5: whenever `extract_job_info` fails — the completion call raised
(`reply = none`), or both the direct JSON parse of the reply and the
parse of the slice from the first `\x7b` to the last `\x7d` fail — it
returns the fixed placeholder job info with the seven documented
default strings, instead of propagating the failure. -/
theorem extract_job_info_failure_placeholder :
    extract_job_info none = placeholder_job_info ∧
    ∀ content : String, json_loads content = none →
      json_loads (pySlice content (pyFindChar content '{') (pyRfindChar content '}' + 1)) = none →
      extract_job_info (some content) = placeholder_job_info := by
  refine ⟨rfl, fun content h1 h2 => ?_⟩
  unfold extract_job_info
  dsimp only
  rw [h1]
  by_cases hc : 0 ≤ pyFindChar content '{' ∧ pyFindChar content '{' < pyRfindChar content '}' + 1
  · rw [if_pos hc, h2]
  · rw [if_neg hc]

/-- Witness for C5 at a reply with no parsable JSON, and at a failed
call. -/
theorem extract_job_info_failure_placeholder_witness :
    extract_job_info (some "no json in this reply") = placeholder_job_info ∧
    extract_job_info none = placeholder_job_info :=
  ⟨extract_job_info_failure_placeholder.2 "no json in this reply" (by decide) (by decide),
   extract_job_info_failure_placeholder.1⟩

/-! ## C2: extractor brace-slice fallback -/

/-- C2: for every model reply whose full text fails direct JSON parsing
but whose slice from the first `\x7b` to the last `\x7d` parses as a
JSON object, `extract_job_info` succeeds and returns exactly that
object. -/
theorem extract_job_info_brace_fallback (content : String) (ms : JsonMembers)
    (h1 : json_loads content = none)
    (h2 : 0 ≤ pyFindChar content '{')
    (h3 : pyFindChar content '{' < pyRfindChar content '}' + 1)
    (h4 : json_loads (pySlice content (pyFindChar content '{') (pyRfindChar content '}' + 1)) =
      some (.obj ms)) :
    extract_job_info (some content) = .obj ms := by
  unfold extract_job_info
  dsimp only
  rw [h1, if_pos ⟨h2, h3⟩, h4]

/-- Witness for C2 at a reply with leading junk before the object. -/
theorem extract_job_info_brace_fallback_witness :
    json_loads "reply: \x7b\"company_name\": \"Acme\"\x7d" = none ∧
    extract_job_info (some "reply: \x7b\"company_name\": \"Acme\"\x7d") =
      .obj (.cons "company_name" (.str "Acme") .nil) :=
  ⟨by decide,
   extract_job_info_brace_fallback "reply: \x7b\"company_name\": \"Acme\"\x7d"
     (.cons "company_name" (.str "Acme") .nil) (by decide) (by decide) (by decide) (by decide)⟩

/-! ## C4: substitution-error fallbacks -/

/-- C4: for every JobInfo and Config where template substitution fails
(for example an unrecognized placeholder name), both
`generate_linkedin_message` and `generate_email` return their
fixed-format fallback strings built from `position_title`,
`company_name`, `hiring_manager_name` and `full_name`, rather than
propagating the failure. -/
theorem substitution_error_fallback (ji : JobInfo) (cfg : Config) :
    (pyFormat cfg.templates.linkedin (linkedin_format_dict ji cfg.personal_info) = none →
      generate_linkedin_message ji cfg = linkedin_fallback ji) ∧
    ((pyFormat cfg.templates.email_subject (email_format_dict ji cfg.personal_info) = none ∨
      pyFormat cfg.templates.email_body (email_format_dict ji cfg.personal_info) = none) →
      generate_email ji cfg = email_fallback ji cfg.personal_info) := by
  constructor
  · intro h
    simp [generate_linkedin_message, h]
  · intro h
    unfold generate_email
    rcases hs : pyFormat cfg.templates.email_subject (email_format_dict ji cfg.personal_info)
      with _ | s
    · rfl
    · rcases hb : pyFormat cfg.templates.email_body (email_format_dict ji cfg.personal_info)
        with _ | b
      · rfl
      · rcases h with h | h
        · rw [h] at hs; exact absurd hs (by simp)
        · rw [h] at hb; exact absurd hb (by simp)

/-- Witness for C4 at a config whose templates use an unrecognized
placeholder. -/
theorem substitution_error_fallback_witness :
    generate_linkedin_message exJI exCfgBad = linkedin_fallback exJI ∧
    generate_email exJI exCfgBad = email_fallback exJI exPI :=
  ⟨(substitution_error_fallback exJI exCfgBad).1 (by decide),
   (substitution_error_fallback exJI exCfgBad).2 (Or.inl (by decide))⟩

/-! ## C8: deterministic rendering -/

/-- C8: for every Config whose templates substitute without error and
every JobInfo, rendering is a pure function of the inputs — the email
subject and body are exactly the substituted templates, the short
message is the substituted (possibly truncated) template, and repeated
calls with the same inputs return identical results. -/
theorem rendering_deterministic (ji : JobInfo) (cfg : Config) (s b m : String)
    (hs : pyFormat cfg.templates.email_subject (email_format_dict ji cfg.personal_info) = some s)
    (hb : pyFormat cfg.templates.email_body (email_format_dict ji cfg.personal_info) = some b)
    (hm : pyFormat cfg.templates.linkedin (linkedin_format_dict ji cfg.personal_info) = some m) :
    generate_email ji cfg = (s, b) ∧
    generate_linkedin_message ji cfg =
      (if 200 < plen m then String.mk (m.data.take 197) ++ "..." else m) ∧
    generate_email ji cfg = generate_email ji cfg ∧
    generate_linkedin_message ji cfg = generate_linkedin_message ji cfg := by
  refine ⟨?_, ?_, rfl, rfl⟩
  · simp [generate_email, hs, hb]
  · simp [generate_linkedin_message, hm]

/-- Witness for C8 at a config with recognized placeholders only. -/
theorem rendering_deterministic_witness :
    generate_email exJI exCfgOk = ("S Engineer", "B Jane") ∧
    generate_linkedin_message exJI exCfgOk = "L Acme" :=
  ⟨(rendering_deterministic exJI exCfgOk "S Engineer" "B Jane" "L Acme"
      (by decide) (by decide) (by decide)).1,
   by
    have h := (rendering_deterministic exJI exCfgOk "S Engineer" "B Jane" "L Acme"
      (by decide) (by decide) (by decide)).2.1
    rw [h]; decide⟩

/-! ## C10: templates-key frame property -/

/-- C10: for every config dict that already contains a `templates` key,
`ensure_templates_in_config` returns it with every field unchanged and
performs no save; only when the key is absent does it add the default
email and LinkedIn templates (leaving every other field unchanged) and
persist the result. -/
theorem ensure_templates_frame (config : JsonMembers) :
    (hasKeyM "templates" config = true → ensure_templates_in_config config = (config, none)) ∧
    (hasKeyM "templates" config = false →
      (ensure_templates_in_config config).1 =
        setKeyM "templates" default_templates_json config ∧
      (ensure_templates_in_config config).2 =
        some (save_config (.obj (setKeyM "templates" default_templates_json config))) ∧
      lookupM "templates" (ensure_templates_in_config config).1 = some default_templates_json ∧
      ∀ k, k ≠ "templates" →
        lookupM k (ensure_templates_in_config config).1 = lookupM k config) := by
  constructor
  · intro h
    simp [ensure_templates_in_config, h]
  · intro h
    have hne : ¬hasKeyM "templates" config = true := by simp [h]
    refine ⟨by simp [ensure_templates_in_config, hne], by simp [ensure_templates_in_config, hne],
      ?_, fun k hk => ?_⟩
    · simp [ensure_templates_in_config, hne, lookupM_setKeyM_self]
    · simp [ensure_templates_in_config, hne, lookupM_setKeyM_ne "templates" k _ hk]

/-- Witness for C10: a config with the key is untouched and unsaved; a
config without it gains exactly the default templates. -/
theorem ensure_templates_frame_witness :
    ensure_templates_in_config (.cons "templates" .null .nil) =
      (.cons "templates" .null .nil, none) ∧
    lookupM "templates" (ensure_templates_in_config (.cons "model" .null .nil)).1 =
      some default_templates_json ∧
    lookupM "model" (ensure_templates_in_config (.cons "model" .null .nil)).1 =
      lookupM "model" (.cons "model" .null .nil) :=
  ⟨(ensure_templates_frame _).1 (by decide),
   ((ensure_templates_frame _).2 (by decide)).2.2.1,
   ((ensure_templates_frame _).2 (by decide)).2.2.2 "model" (by decide)⟩

/-! ## C1: short-message length cap -/

/-- C1 counterexample: the claim says the message returned by
`generate_linkedin_message` never exceeds 200 characters for any
template/JobInfo/Config combination, but when substitution fails (here
an unrecognized placeholder) the fixed fallback is returned, and with a
140-character `position_title` it is 208 characters long. -/
theorem linkedin_length_counterexample :
    200 < plen (generate_linkedin_message exJIlong exCfgBad) := by decide

/-- C1 (amended): whenever template substitution succeeds, the message
returned by `generate_linkedin_message` never exceeds 200 characters;
if the substituted string is longer than 200 characters, the result is
its first 197 characters followed by `...` — exactly 200 characters
long and ending in `...`. -/
theorem generate_linkedin_message_truncation (ji : JobInfo) (cfg : Config) (m : String)
    (h : pyFormat cfg.templates.linkedin (linkedin_format_dict ji cfg.personal_info) = some m) :
    plen (generate_linkedin_message ji cfg) ≤ 200 ∧
    (200 < plen m →
      generate_linkedin_message ji cfg = String.mk (m.data.take 197) ++ "..." ∧
      plen (generate_linkedin_message ji cfg) = 200 ∧
      ∃ p : List Char, (generate_linkedin_message ji cfg).data = p ++ ['.', '.', '.']) := by
  have hg : generate_linkedin_message ji cfg =
      if 200 < plen m then String.mk (m.data.take 197) ++ "..." else m := by
    simp [generate_linkedin_message, h]
  have hdata : (String.mk (m.data.take 197) ++ "...").data
      = m.data.take 197 ++ ['.', '.', '.'] := rfl
  have hlen : 200 < plen m → plen (String.mk (m.data.take 197) ++ "...") = 200 := by
    intro hc
    unfold plen at hc ⊢
    rw [hdata]
    have h197 : (m.data.take 197).length = 197 := by
      rw [List.length_take]
      omega
    rw [List.length_append, h197]
    rfl
  constructor
  · rw [hg]
    by_cases hc : 200 < plen m
    · rw [if_pos hc, hlen hc]
    · rw [if_neg hc]; omega
  · intro hc
    rw [hg, if_pos hc]
    exact ⟨rfl, hlen hc, ⟨m.data.take 197, hdata⟩⟩

/-- Witness for C1 (amended) at a 210-character template: substitution
succeeds and the message is truncated to exactly 200 characters. -/
theorem generate_linkedin_message_truncation_witness :
    plen (generate_linkedin_message exJI exCfgLong) ≤ 200 ∧
    200 < plen (String.mk (List.replicate 210 'x')) ∧
    plen (generate_linkedin_message exJI exCfgLong) = 200 :=
  ⟨(generate_linkedin_message_truncation exJI exCfgLong
      (String.mk (List.replicate 210 'x')) (by decide)).1,
   by decide,
   ((generate_linkedin_message_truncation exJI exCfgLong
      (String.mk (List.replicate 210 'x')) (by decide)).2 (by decide)).2.1⟩

/-! ## Lemmas about `pySplit` -/

theorem findSub_bound (sep : List Char) :
    ∀ s i, findSub sep s = some i → i + sep.length ≤ s.length
  | [], i => by
    unfold findSub
    by_cases h : sep.isPrefixOf ([] : List Char)
    · intro he
      rw [if_pos h] at he
      cases he
      have hsep : sep = [] := List.prefix_nil.mp (List.isPrefixOf_iff_prefix.mp h)
      simp [hsep]
    · intro he
      rw [if_neg h] at he
      cases he
  | c :: rest, i => by
    unfold findSub
    by_cases h : sep.isPrefixOf (c :: rest)
    · intro he
      rw [if_pos h] at he
      cases he
      simpa using (List.isPrefixOf_iff_prefix.mp h).length_le
    · intro he
      rw [if_neg h] at he
      rcases Option.map_eq_some'.mp he with ⟨j, hj, hij⟩
      have hb := findSub_bound sep rest j hj
      subst hij
      simp only [List.length_cons]
      omega

theorem findSub_nil_of_ne (sep : List Char) (hne : sep ≠ []) :
    findSub sep [] = none := by
  unfold findSub
  rw [if_neg]
  intro h
  exact hne (List.prefix_nil.mp (List.isPrefixOf_iff_prefix.mp h))

theorem pySplitF_congr (sep : List Char) (hne : sep ≠ []) :
    ∀ f g s, s.length < f → s.length < g → pySplitF sep f s = pySplitF sep g s := by
  intro f
  induction f with
  | zero => intro g s hf; omega
  | succ f ih =>
    intro g s hf hg
    match g, hg with
    | g+1, hg =>
      show pySplitF sep (f+1) s = pySplitF sep (g+1) s
      unfold pySplitF
      cases hfs : findSub sep s with
      | none => rfl
      | some i =>
        have hb := findSub_bound sep s i hfs
        have hsep1 : 1 ≤ sep.length := List.length_pos.mpr hne
        have hd : (s.drop (i + sep.length)).length < f := by
          rw [List.length_drop]; omega
        have hd2 : (s.drop (i + sep.length)).length < g := by
          rw [List.length_drop]; omega
        dsimp only
        rw [ih g (s.drop (i + sep.length)) hd hd2]

theorem pySplitL_none (sep s : List Char) (h : findSub sep s = none) :
    pySplitL sep s = [s] := by
  unfold pySplitL pySplitF
  rw [h]

theorem pySplitL_some (sep s : List Char) (i : Nat) (hne : sep ≠ [])
    (h : findSub sep s = some i) :
    pySplitL sep s = s.take i :: pySplitL sep (s.drop (i + sep.length)) := by
  have hb := findSub_bound sep s i h
  have hsep1 : 1 ≤ sep.length := List.length_pos.mpr hne
  show pySplitF sep (s.length + 1) s = _
  unfold pySplitF
  rw [h]
  dsimp only
  have : pySplitF sep s.length (s.drop (i + sep.length)) =
      pySplitL sep (s.drop (i + sep.length)) := by
    apply pySplitF_congr sep hne
    · rw [List.length_drop]; omega
    · rw [List.length_drop]; omega
  rw [this]

theorem pySplitF_ne_nil (sep : List Char) : ∀ fuel s, pySplitF sep fuel s ≠ [] := by
  intro fuel
  cases fuel with
  | zero => intro s; simp [pySplitF]
  | succ f =>
    intro s
    unfold pySplitF
    cases hfs : findSub sep s <;> simp

/-- The first element of a Python split is the text before the first
occurrence of the separator. -/
theorem pySplitS_headD (sep s : String) (hne : sep.data ≠ []) (d : String) :
    (pySplitS sep s).headD d = textBefore sep s := by
  unfold pySplitS textBefore
  cases hfs : findSub sep.data s.data with
  | none =>
    rw [pySplitL_none sep.data s.data hfs]
    rfl
  | some i =>
    rw [pySplitL_some sep.data s.data i hne hfs]
    rfl

/-- A string containing exactly one occurrence of the separator splits
into the text before it and the text after it. -/
theorem pySplitS_pair (sep s : String) (hne : sep.data ≠ [])
    (h : countSub sep s = 1) :
    pySplitS sep s = [textBefore sep s, textAfterFirst sep s] := by
  unfold countSub pySplitS at h
  rw [List.length_map] at h
  unfold pySplitS textBefore textAfterFirst
  cases hfs : findSub sep.data s.data with
  | none =>
    rw [pySplitL_none sep.data s.data hfs] at h ⊢
    simp at h
  | some i =>
    rw [pySplitL_some sep.data s.data i hne hfs] at h ⊢
    cases hfs2 : findSub sep.data (s.data.drop (i + sep.data.length)) with
    | none =>
      rw [pySplitL_none _ _ hfs2]
      rfl
    | some j =>
      rw [pySplitL_some _ _ j hne hfs2] at h
      simp only [List.length_cons] at h
      have := pySplitF_ne_nil sep.data
        ((s.data.drop (i + sep.data.length)).drop (j + sep.data.length)).length.succ
        ((s.data.drop (i + sep.data.length)).drop (j + sep.data.length))
      have hlen : pySplitL sep.data ((s.data.drop (i + sep.data.length)).drop (j + sep.data.length)) ≠ [] :=
        pySplitF_ne_nil sep.data _ _
      have : 1 ≤ (pySplitL sep.data ((s.data.drop (i + sep.data.length)).drop (j + sep.data.length))).length := by
        cases hml : pySplitL sep.data ((s.data.drop (i + sep.data.length)).drop (j + sep.data.length)) with
        | nil => exact absurd hml hlen
        | cons x xs => simp
      omega

/-! ## C3: CV-content marker splitting -/

/-- C3 counterexample: at this reply the markers `about_me`,
`why_company:` and `why_me:` each occur exactly once and in order, yet
the `about_me` segment produced by `generate_cv_content` is empty — not
the trimmed text before the `why_company:` marker with `about_me:`
removed — because the code splits on the string `why_company` without
the colon, which also occurs earlier in the text. -/
theorem cv_segments_counterexample :
    countSub "about_me" "about_me: why_company mention why_company: B why_me: C" = 1 ∧
    countSub "why_company:" "about_me: why_company mention why_company: B why_me: C" = 1 ∧
    countSub "why_me:" "about_me: why_company mention why_company: B why_me: C" = 1 ∧
    (generate_cv_content (some "about_me: why_company mention why_company: B why_me: C")).about_me
      = "" ∧
    pyStrip (pyReplace "about_me:" ""
        (textBefore "why_company:" "about_me: why_company mention why_company: B why_me: C"))
      = "why_company mention" := by
  refine ⟨by decide, by decide, by decide, by decide, by decide⟩

/-- C3 (amended): for every model reply containing `about_me`,
`why_company:` and `why_me:` each exactly once and in that order,
`generate_cv_content` returns three whitespace-trimmed segments:
`about_me` is the text before the first occurrence of `why_company`
(without the colon) with every `about_me:` occurrence removed,
`why_company` is the text between the `why_company:` marker and the
`why_me:` marker, and `why_me` is the text after the `why_me:` marker;
the segments may be empty. -/
theorem generate_cv_content_segments (content : String)
    (h0 : countSub "about_me" content = 1)
    (h0b : countSub "about_me" (textBefore "why_company:" content) = 1)
    (h1 : countSub "why_company:" content = 1)
    (h2 : countSub "why_me:" content = 1)
    (h3 : countSub "why_me:" (textAfterFirst "why_company:" content) = 1) :
    generate_cv_content (some content) =
      { about_me := pyStrip (pyReplace "about_me:" "" (textBefore "why_company" content))
        why_company := pyStrip (textBefore "why_me:" (textAfterFirst "why_company:" content))
        why_me := pyStrip (textAfterFirst "why_me:" content) } := by
  have e1 : pySplitS "why_company:" content =
      [textBefore "why_company:" content, textAfterFirst "why_company:" content] :=
    pySplitS_pair _ _ (by decide) h1
  have e2 : pySplitS "why_me:" content =
      [textBefore "why_me:" content, textAfterFirst "why_me:" content] :=
    pySplitS_pair _ _ (by decide) h2
  unfold generate_cv_content
  dsimp only
  rw [e1, e2]
  dsimp only
  rw [pySplitS_headD "why_company" content (by decide),
    pySplitS_headD "why_me:" (textAfterFirst "why_company:" content) (by decide)]

/-- Witness for C3 (amended) at a well-formed reply. -/
theorem generate_cv_content_segments_witness :
    generate_cv_content (some "about_me: A why_company: B why_me: C") =
      { about_me := "A", why_company := "B", why_me := "C" } := by
  rw [generate_cv_content_segments "about_me: A why_company: B why_me: C"
    (by decide) (by decide) (by decide) (by decide) (by decide)]
  decide

/-! ## Lemmas about lines and `save_api_key` -/

theorem strAppend_assoc (a b c : String) : a ++ b ++ c = a ++ (b ++ c) :=
  congrArg String.mk (List.append_assoc a.data b.data c.data)

theorem isPrefixOf_append_single (c : Char) :
    ∀ p l : List Char, c ∉ p → (p.isPrefixOf (l ++ [c])) = p.isPrefixOf l
  | [], l, h => by simp [List.isPrefixOf]
  | a :: p2, [], h => by
    have hac : ¬a = c := fun he => h (by simp [he])
    simp [List.isPrefixOf, hac]
  | a :: p2, b :: l2, h => by
    have h2 : c ∉ p2 := fun he => h (by simp [he])
    show ((a :: p2).isPrefixOf ((b :: l2) ++ [c])) = (a :: p2).isPrefixOf (b :: l2)
    have e1 : ((a :: p2).isPrefixOf ((b :: l2) ++ [c])) = (a == b && p2.isPrefixOf (l2 ++ [c])) := rfl
    have e2 : ((a :: p2).isPrefixOf (b :: l2)) = (a == b && p2.isPrefixOf l2) := rfl
    rw [e1, e2, isPrefixOf_append_single c p2 l2 h2]

theorem readLinesAux_eq (cs : List Char) : ∀ acc : List Char,
    (cs ≠ [] → cs.getLast? = some '\n') → (cs = [] → acc = []) →
    readLinesAux acc cs = (linesOfAux acc cs).map (fun t => t ++ "\n") := by
  induction cs with
  | nil =>
    intro acc h1 h2
    rw [h2 rfl]
    rfl
  | cons c rest ih =>
    intro acc h1 h2
    by_cases hc : c = '\n'
    · subst hc
      show readLinesAux acc ('\n' :: rest) = (linesOfAux acc ('\n' :: rest)).map (fun t => t ++ "\n")
      unfold readLinesAux linesOfAux
      rw [if_pos rfl, if_pos rfl]
      cases rest with
      | nil => rfl
      | cons r rs =>
        have h1b : (r :: rs) ≠ [] → (r :: rs).getLast? = some '\n' := by
          intro _
          have := h1 (by simp)
          rwa [List.getLast?_cons_cons] at this
        rw [List.map_cons, ih [] h1b (by simp)]
        rfl
    · cases rest with
      | nil =>
        exact absurd (by simpa using h1 (by simp)) hc
      | cons r rs =>
        show readLinesAux acc (c :: r :: rs) = (linesOfAux acc (c :: r :: rs)).map (fun t => t ++ "\n")
        unfold readLinesAux linesOfAux
        rw [if_neg hc, if_neg hc]
        have h1b : (r :: rs) ≠ [] → (r :: rs).getLast? = some '\n' := by
          intro _
          have := h1 (by simp)
          rwa [List.getLast?_cons_cons] at this
        exact ih (c :: acc) h1b (by simp)

theorem updateKeyLines_map (key : String) :
    ∀ L : List String,
      updateKeyLines key (L.map (fun t => t ++ "\n")) =
        (claimKeyUpdate key L).map (fun t => t ++ "\n")
  | [] => by
    simp [updateKeyLines, claimKeyUpdate, strAppend_assoc]
  | l :: L2 => by
    have hsw : strStartsWith (l ++ "\n") "OPENAI_API_KEY=" = strStartsWith l "OPENAI_API_KEY=" := by
      unfold strStartsWith
      have hd : (l ++ "\n").data = l.data ++ ['\n'] := rfl
      rw [hd, isPrefixOf_append_single '\n' _ _ (by decide)]
    by_cases h : strStartsWith l "OPENAI_API_KEY=" = true
    · simp [updateKeyLines, claimKeyUpdate, hsw, h, strAppend_assoc]
    · have h2 : strStartsWith l "OPENAI_API_KEY=" = false := by simpa using h
      simp [updateKeyLines, claimKeyUpdate, hsw, h2, updateKeyLines_map key L2]

theorem linesOfAux_no_newline (cs : List Char) : ∀ acc : List Char,
    '\n' ∉ acc → ∀ l ∈ linesOfAux acc cs, '\n' ∉ l.data := by
  induction cs with
  | nil =>
    intro acc hacc l hl
    by_cases he : acc.isEmpty
    · simp [linesOfAux, he] at hl
    · simp [linesOfAux, he] at hl
      subst hl
      simpa using hacc
  | cons c rest ih =>
    intro acc hacc l hl
    by_cases hc : c = '\n'
    · subst hc
      have he : linesOfAux acc ('\n' :: rest) = String.mk acc.reverse :: linesOfAux [] rest := by
        simp only [linesOfAux]
        simp
      rw [he] at hl
      rcases List.mem_cons.mp hl with hl2 | hl2
      · subst hl2
        simpa using hacc
      · exact ih [] (by simp) l hl2
    · have he : linesOfAux acc (c :: rest) = linesOfAux (c :: acc) rest := by
        simp only [linesOfAux, if_neg hc]
      rw [he] at hl
      refine ih (c :: acc) ?_ l hl
      simp only [List.mem_cons, not_or]
      exact ⟨fun h2 => hc h2.symm, hacc⟩

theorem linesOfAux_append (lchars : List Char) : ∀ (acc rest : List Char), '\n' ∉ lchars →
    linesOfAux acc (lchars ++ '\n' :: rest) =
      String.mk (acc.reverse ++ lchars) :: linesOfAux [] rest := by
  induction lchars with
  | nil =>
    intro acc rest h
    show linesOfAux acc ('\n' :: rest) = _
    simp only [linesOfAux]
    simp
  | cons x xs ih =>
    intro acc rest h
    have hx : ¬x = '\n' := fun he => h (by simp [he])
    show linesOfAux acc (x :: (xs ++ '\n' :: rest)) = _
    have he : linesOfAux acc (x :: (xs ++ '\n' :: rest)) =
        linesOfAux (x :: acc) (xs ++ '\n' :: rest) := by
      simp only [linesOfAux, if_neg hx]
    rw [he, ih (x :: acc) rest (fun h2 => h (by simp [h2]))]
    have h3 : (x :: acc).reverse ++ xs = acc.reverse ++ (x :: xs) := by
      simp [List.reverse_cons, List.append_assoc]
    rw [h3]

theorem linesOf_join : ∀ L : List String, (∀ l ∈ L, '\n' ∉ l.data) →
    linesOf (strConcat (L.map (fun t => t ++ "\n"))) = L
  | [], _ => rfl
  | l :: L2, h => by
    show linesOf ((l ++ "\n") ++ strConcat (L2.map (fun t => t ++ "\n"))) = l :: L2
    unfold linesOf
    have hdata : ((l ++ "\n") ++ strConcat (L2.map (fun t => t ++ "\n"))).data
        = l.data ++ '\n' :: (strConcat (L2.map (fun t => t ++ "\n"))).data := by
      show (l.data ++ ['\n']) ++ (strConcat (L2.map (fun t => t ++ "\n"))).data = _
      simp [List.append_assoc]
    rw [hdata, linesOfAux_append l.data [] _ (h l (by simp))]
    have ih := linesOf_join L2 (fun l2 hl2 => h l2 (by simp [hl2]))
    unfold linesOf at ih
    rw [ih]
    rfl

theorem claimKeyUpdate_no_newline (key : String) (hkey : '\n' ∉ key.data) :
    ∀ L : List String, (∀ l ∈ L, '\n' ∉ l.data) →
      ∀ l ∈ claimKeyUpdate key L, '\n' ∉ l.data
  | [], _ => by
    intro l hl
    simp [claimKeyUpdate] at hl
    subst hl
    show '\n' ∉ "OPENAI_API_KEY=".data ++ key.data
    simp only [List.mem_append, not_or]
    exact ⟨by decide, hkey⟩
  | l0 :: L2, h => by
    intro l hl
    unfold claimKeyUpdate at hl
    by_cases hsw : strStartsWith l0 "OPENAI_API_KEY="
    · rw [if_pos hsw] at hl
      rcases List.mem_cons.mp hl with hl2 | hl2
      · subst hl2
        show '\n' ∉ "OPENAI_API_KEY=".data ++ key.data
        simp only [List.mem_append, not_or]
        exact ⟨by decide, hkey⟩
      · exact h l (List.mem_cons_of_mem l0 hl2)
    · rw [if_neg hsw] at hl
      rcases List.mem_cons.mp hl with hl2 | hl2
      · subst hl2
        exact h l (by simp)
      · exact claimKeyUpdate_no_newline key hkey L2
          (fun l2 hl3 => h l2 (List.mem_cons_of_mem l0 hl3)) l hl2

/-! ## C9: credential-file line rewriting -/

/-- C9 counterexample: the claim fails when the existing contents do
not end with a newline (the appended key line is glued onto the final
line), and also when the api-key string itself contains a newline. -/
theorem save_api_key_lines_counterexample :
    linesOf (save_api_key (some "A") "k") ≠ claimKeyUpdate "k" (linesOf "A") ∧
    linesOf (save_api_key (some "X\n") "k\nZ") ≠ claimKeyUpdate "k\nZ" (linesOf "X\n") := by
  constructor
  · decide
  · decide

/-- C9 (amended): for every existing credential file whose contents are
empty or end with a newline, and every api-key string without embedded
newlines, `save_api_key` leaves every line not starting with
`OPENAI_API_KEY=` unchanged and in its original order: it rewrites only
the first line starting with `OPENAI_API_KEY=`, or appends such a line
at the end when no line starts with that prefix. -/
theorem save_api_key_lines (contents key : String)
    (hend : contents.data = [] ∨ contents.data.getLast? = some '\n')
    (hkey : '\n' ∉ key.data) :
    linesOf (save_api_key (some contents) key) = claimKeyUpdate key (linesOf contents) := by
  have h1 : pyReadLines contents = (linesOf contents).map (fun t => t ++ "\n") := by
    unfold pyReadLines linesOf
    apply readLinesAux_eq
    · intro hne
      rcases hend with h | h
      · exact absurd h hne
      · exact h
    · intro _
      rfl
  show linesOf (strConcat (updateKeyLines key (pyReadLines contents))) = _
  rw [h1, updateKeyLines_map]
  exact linesOf_join _ (claimKeyUpdate_no_newline key hkey _
    (linesOfAux_no_newline contents.data [] (by simp)))

/-- Witness for C9 (amended) at a three-line file with a key line in
the middle. -/
theorem save_api_key_lines_witness :
    linesOf (save_api_key (some "A\nOPENAI_API_KEY=old\nB\n") "k") =
      claimKeyUpdate "k" (linesOf "A\nOPENAI_API_KEY=old\nB\n") ∧
    linesOf (save_api_key (some "A\nOPENAI_API_KEY=old\nB\n") "k") =
      ["A", "OPENAI_API_KEY=k", "B"] :=
  ⟨save_api_key_lines "A\nOPENAI_API_KEY=old\nB\n" "k" (Or.inr (by decide)) (by decide),
   by decide⟩

/-! ## Lemmas: string escaping round-trips through the parser -/

theorem hexVal_hexDig : ∀ k, k < 16 → hexVal (hexDig k) = some k := by decide

theorem parseStrAux_quote (f : Nat) (acc rest : List Char) :
    parseStrAux (f+1) acc ('"' :: rest) = some (String.mk acc.reverse, rest) := by
  simp only [parseStrAux]
  rfl

theorem parseStrAux_backslash (f : Nat) (acc rest : List Char) :
    parseStrAux (f+1) acc ('\\' :: rest) =
      (match decodeEsc rest with
       | some (ch, r2) => parseStrAux f (ch :: acc) r2
       | none => none) := by
  simp only [parseStrAux]
  rfl

theorem parseStrAux_raw (f : Nat) (c : Char) (acc rest : List Char) (h1 : ¬c = '"')
    (h2 : ¬c = '\\') (h3 : ¬c.toNat < 0x20) :
    parseStrAux (f+1) acc (c :: rest) = parseStrAux f (c :: acc) rest := by
  simp only [parseStrAux, if_neg h1, if_neg h2, if_neg h3]

theorem decodeU_hex4 (n : Nat) (tail : List Char) (hn : n < 0x10000)
    (hs1 : ¬(0xd800 ≤ n ∧ n ≤ 0xdbff)) (hs2 : ¬(0xdc00 ≤ n ∧ n ≤ 0xdfff)) :
    decodeU (hex4 n ++ tail) = some (Char.ofNat n, tail) := by
  have h0 : n / 4096 % 16 < 16 := Nat.mod_lt _ (by omega)
  have h1 : n / 256 % 16 < 16 := Nat.mod_lt _ (by omega)
  have h2 : n / 16 % 16 < 16 := Nat.mod_lt _ (by omega)
  have h3 : n % 16 < 16 := Nat.mod_lt _ (by omega)
  simp only [hex4, List.cons_append, List.nil_append]
  simp only [decodeU, hexVal_hexDig _ h0, hexVal_hexDig _ h1, hexVal_hexDig _ h2,
    hexVal_hexDig _ h3]
  have harith : 4096 * (n / 4096 % 16) + 256 * (n / 256 % 16) + 16 * (n / 16 % 16) + n % 16
      = n := by omega
  rw [harith]
  unfold decodeUVal
  rw [if_neg hs1, if_neg hs2]

theorem decodeU_hex4_pair (v : Nat) (tail : List Char) (hv : v < 0x100000) :
    decodeU (hex4 (0xd800 + v / 0x400) ++
        ('\\' :: 'u' :: (hex4 (0xdc00 + v % 0x400) ++ tail))) =
      some (Char.ofNat (0x10000 + v), tail) := by
  have h0 : ∀ m : Nat, m / 4096 % 16 < 16 := fun m => Nat.mod_lt _ (by omega)
  have h1 : ∀ m : Nat, m / 256 % 16 < 16 := fun m => Nat.mod_lt _ (by omega)
  have h2 : ∀ m : Nat, m / 16 % 16 < 16 := fun m => Nat.mod_lt _ (by omega)
  have h3 : ∀ m : Nat, m % 16 < 16 := fun m => Nat.mod_lt _ (by omega)
  have harith : ∀ m : Nat, m < 0x10000 →
      4096 * (m / 4096 % 16) + 256 * (m / 256 % 16) + 16 * (m / 16 % 16) + m % 16 = m := by
    intro m hm3
    omega
  simp only [hex4, List.cons_append, List.nil_append, List.append_assoc]
  simp only [decodeU, hexVal_hexDig _ (h0 _), hexVal_hexDig _ (h1 _), hexVal_hexDig _ (h2 _),
    hexVal_hexDig _ (h3 _)]
  rw [harith _ (by omega)]
  unfold decodeUVal
  rw [if_pos (by omega)]
  dsimp only
  rw [if_pos ⟨rfl, rfl⟩]
  simp only [hexVal_hexDig _ (h0 _), hexVal_hexDig _ (h1 _), hexVal_hexDig _ (h2 _),
    hexVal_hexDig _ (h3 _)]
  rw [harith _ (by omega)]
  unfold decodeUPair
  rw [if_pos (by omega)]
  have hcp : 0x10000 + (0xd800 + v / 0x400 - 0xd800) * 0x400 + (0xdc00 + v % 0x400 - 0xdc00)
      = 0x10000 + v := by omega
  rw [hcp]

theorem parseStrAux_escList : ∀ (cs : List Char) (fuel : Nat) (acc rest : List Char),
    cs.length < fuel →
    parseStrAux fuel acc (escList cs ++ '"' :: rest) = some (String.mk (acc.reverse ++ cs), rest)
  | [], fuel, acc, rest => by
    intro h
    cases fuel with
    | zero => omega
    | succ f =>
      show parseStrAux (f+1) acc ('"' :: rest) = _
      rw [parseStrAux_quote]
      simp
  | c :: t, fuel, acc, rest => by
    intro h
    cases fuel with
    | zero => omega
    | succ f =>
      have ht : t.length < f := by simp at h; omega
      have hrev : ∀ x : Char, (x :: acc).reverse ++ t = acc.reverse ++ x :: t := by
        intro x
        simp
      show parseStrAux (f+1) acc ((escChar c ++ escList t) ++ '"' :: rest) = _
      rw [List.append_assoc]
      by_cases hq : c = '"'
      · subst hq
        rw [show escChar '"' = ['\\', '"'] from rfl]
        simp only [List.cons_append, List.nil_append]
        rw [parseStrAux_backslash,
          show decodeEsc ('"' :: (escList t ++ '"' :: rest))
            = some ('"', escList t ++ '"' :: rest) from rfl]
        dsimp only
        rw [parseStrAux_escList t f ('"' :: acc) rest ht, hrev]
      · by_cases hbs : c = '\\'
        · subst hbs
          rw [show escChar '\\' = ['\\', '\\'] from rfl]
          simp only [List.cons_append, List.nil_append]
          rw [parseStrAux_backslash,
            show decodeEsc ('\\' :: (escList t ++ '"' :: rest))
              = some ('\\', escList t ++ '"' :: rest) from rfl]
          dsimp only
          rw [parseStrAux_escList t f ('\\' :: acc) rest ht, hrev]
        · by_cases hn : c = '\n'
          · subst hn
            rw [show escChar '\n' = ['\\', 'n'] from rfl]
            simp only [List.cons_append, List.nil_append]
            rw [parseStrAux_backslash,
              show decodeEsc ('n' :: (escList t ++ '"' :: rest))
                = some ('\n', escList t ++ '"' :: rest) from rfl]
            dsimp only
            rw [parseStrAux_escList t f ('\n' :: acc) rest ht, hrev]
          · by_cases hr : c = '\r'
            · subst hr
              rw [show escChar '\r' = ['\\', 'r'] from rfl]
              simp only [List.cons_append, List.nil_append]
              rw [parseStrAux_backslash,
                show decodeEsc ('r' :: (escList t ++ '"' :: rest))
                  = some ('\r', escList t ++ '"' :: rest) from rfl]
              dsimp only
              rw [parseStrAux_escList t f ('\r' :: acc) rest ht, hrev]
            · by_cases htb : c = '\t'
              · subst htb
                rw [show escChar '\t' = ['\\', 't'] from rfl]
                simp only [List.cons_append, List.nil_append]
                rw [parseStrAux_backslash,
                  show decodeEsc ('t' :: (escList t ++ '"' :: rest))
                    = some ('\t', escList t ++ '"' :: rest) from rfl]
                dsimp only
                rw [parseStrAux_escList t f ('\t' :: acc) rest ht, hrev]
              · by_cases hbk : c = '\x08'
                · subst hbk
                  rw [show escChar '\x08' = ['\\', 'b'] from rfl]
                  simp only [List.cons_append, List.nil_append]
                  rw [parseStrAux_backslash,
                    show decodeEsc ('b' :: (escList t ++ '"' :: rest))
                      = some ('\x08', escList t ++ '"' :: rest) from rfl]
                  dsimp only
                  rw [parseStrAux_escList t f ('\x08' :: acc) rest ht, hrev]
                · by_cases hff : c = '\x0c'
                  · subst hff
                    rw [show escChar '\x0c' = ['\\', 'f'] from rfl]
                    simp only [List.cons_append, List.nil_append]
                    rw [parseStrAux_backslash,
                      show decodeEsc ('f' :: (escList t ++ '"' :: rest))
                        = some ('\x0c', escList t ++ '"' :: rest) from rfl]
                    dsimp only
                    rw [parseStrAux_escList t f ('\x0c' :: acc) rest ht, hrev]
                  · have hvalid : c.toNat < 0xd800 ∨ (0xdfff < c.toNat ∧ c.toNat < 0x110000) :=
                      c.valid
                    by_cases hraw : 0x20 ≤ c.toNat ∧ c.toNat ≤ 0x7e
                    · have he : escChar c = [c] := by
                        unfold escChar
                        rw [if_neg hq, if_neg hbs, if_neg hn, if_neg hr, if_neg htb,
                          if_neg hbk, if_neg hff, if_pos hraw]
                      rw [he]
                      simp only [List.cons_append, List.nil_append]
                      rw [parseStrAux_raw f c acc _ hq hbs (by omega)]
                      rw [parseStrAux_escList t f (c :: acc) rest ht, hrev]
                    · by_cases hbmp : c.toNat < 0x10000
                      · have he : escChar c = '\\' :: 'u' :: hex4 c.toNat := by
                          unfold escChar
                          rw [if_neg hq, if_neg hbs, if_neg hn, if_neg hr, if_neg htb,
                            if_neg hbk, if_neg hff, if_neg hraw, if_pos hbmp]
                        rw [he]
                        simp only [List.cons_append, List.nil_append, List.append_assoc]
                        rw [parseStrAux_backslash,
                          show decodeEsc ('u' :: (hex4 c.toNat ++ (escList t ++ '"' :: rest)))
                            = decodeU (hex4 c.toNat ++ (escList t ++ '"' :: rest)) from rfl]
                        have hs1 : ¬(0xd800 ≤ c.toNat ∧ c.toNat ≤ 0xdbff) := by omega
                        have hs2 : ¬(0xdc00 ≤ c.toNat ∧ c.toNat ≤ 0xdfff) := by omega
                        rw [decodeU_hex4 c.toNat _ hbmp hs1 hs2]
                        dsimp only
                        rw [Char.ofNat_toNat]
                        rw [parseStrAux_escList t f (c :: acc) rest ht, hrev]
                      · have he : escChar c =
                            ('\\' :: 'u' :: hex4 (0xd800 + (c.toNat - 0x10000) / 0x400)) ++
                              ('\\' :: 'u' :: hex4 (0xdc00 + (c.toNat - 0x10000) % 0x400)) := by
                          unfold escChar
                          rw [if_neg hq, if_neg hbs, if_neg hn, if_neg hr, if_neg htb,
                            if_neg hbk, if_neg hff, if_neg hraw, if_neg hbmp]
                        obtain ⟨v, hv⟩ : ∃ v, c.toNat - 0x10000 = v := ⟨_, rfl⟩
                        have hv2 : c.toNat = 0x10000 + v := by omega
                        have hvlt : v < 0x100000 := by omega
                        rw [he, hv]
                        simp only [List.cons_append, List.nil_append, List.append_assoc]
                        rw [parseStrAux_backslash,
                          show decodeEsc ('u' :: (hex4 (0xd800 + v / 0x400) ++
                              ('\\' :: 'u' :: (hex4 (0xdc00 + v % 0x400) ++
                                (escList t ++ '"' :: rest)))))
                            = decodeU (hex4 (0xd800 + v / 0x400) ++
                              ('\\' :: 'u' :: (hex4 (0xdc00 + v % 0x400) ++
                                (escList t ++ '"' :: rest)))) from rfl]
                        rw [decodeU_hex4_pair v _ hvlt]
                        dsimp only
                        rw [← hv2, Char.ofNat_toNat]
                        rw [parseStrAux_escList t f (c :: acc) rest ht, hrev]

/-! ## Lemmas: parsing the pretty-printed dump -/

theorem escChar_length_pos (c : Char) : 1 ≤ (escChar c).length := by
  unfold escChar
  split
  · simp
  · split
    · simp
    · split
      · simp
      · split
        · simp
        · split
          · simp
          · split
            · simp
            · split
              · simp
              · split
                · simp
                · split
                  · simp [hex4]
                  · simp [hex4]

theorem escList_len_ge : ∀ cs : List Char, cs.length ≤ (escList cs).length
  | [] => by simp [escList]
  | c :: t => by
    have h1 := escChar_length_pos c
    have h2 := escList_len_ge t
    simp only [escList, List.length_append, List.length_cons]
    omega

theorem skipWs_cons_ws (c : Char) (s : List Char) (h : jsonWs c = true) :
    skipWs (c :: s) = skipWs s := by
  simp [skipWs, h]

theorem skipWs_not_ws (c : Char) (s : List Char) (h : jsonWs c = false) :
    skipWs (c :: s) = c :: s := by
  simp [skipWs, h]

theorem skipWs_ws_append : ∀ ws s : List Char, (∀ c ∈ ws, jsonWs c = true) →
    skipWs (ws ++ s) = skipWs s
  | [], s, _ => rfl
  | c :: t, s, h => by
    rw [List.cons_append, skipWs_cons_ws c _ (h c (by simp))]
    exact skipWs_ws_append t s (fun c2 hc2 => h c2 (by simp [hc2]))

theorem indent_ws (lvl : Nat) : ∀ c ∈ jsonIndent lvl, jsonWs c = true := by
  intro c hc
  have := List.eq_of_mem_replicate hc
  subst this
  rfl

/-! Depth of nesting of a JSON value, used as a fuel bound. -/

mutual
def jsonDepth : Json → Nat
  | .null => 0
  | .bool _ => 0
  | .num _ => 0
  | .str _ => 0
  | .obj ms => membersDepth ms + 1
  | .arr xs => elemsDepth xs + 1
def membersDepth : JsonMembers → Nat
  | .nil => 0
  | .cons _ v tl => max (jsonDepth v) (membersDepth tl) + 1
def elemsDepth : JsonList → Nat
  | .nil => 0
  | .cons v tl => max (jsonDepth v) (elemsDepth tl) + 1
end

/-! Values in the fragment whose round-trip is proved: everything the
config file contains (no numbers, no arrays). -/

mutual
def plainJson : Json → Bool
  | .null => true
  | .bool _ => true
  | .num _ => false
  | .str _ => true
  | .obj ms => plainMembers ms
  | .arr _ => false
def plainMembers : JsonMembers → Bool
  | .nil => true
  | .cons _ v tl => plainJson v && plainMembers tl
end

theorem members_append_assoc : ∀ a b c : JsonMembers,
    (a.append b).append c = a.append (b.append c)
  | .nil, b, c => rfl
  | .cons k v tl, b, c => by
    simp only [JsonMembers.append]
    rw [members_append_assoc tl b c]

theorem natDigits_ne_nil (f n : Nat) : 0 < (natDigits (f + 1) n).length := by
  unfold natDigits
  split
  · simp
  · simp

theorem intRepr_ne_nil (n : Int) : 0 < (intRepr n).length := by
  unfold intRepr
  split
  · simp
  · exact natDigits_ne_nil _ _

mutual
theorem jsonDepth_lt_dump : ∀ (j : Json) (lvl : Nat), jsonDepth j < (dumpJson lvl j).length
  | .null, lvl => by simp [jsonDepth, dumpJson]
  | .bool b, lvl => by cases b <;> simp [jsonDepth, dumpJson]
  | .num n, lvl => by
    have h := intRepr_ne_nil n
    simp only [jsonDepth, dumpJson]
    omega
  | .str s, lvl => by simp [jsonDepth, dumpJson]
  | .obj .nil, lvl => by simp [jsonDepth, membersDepth, dumpJson]
  | .obj (.cons k v tl), lvl => by
    have h := membersDepth_lt_dump (.cons k v tl) (lvl + 1)
    simp only [jsonDepth, dumpJson, List.length_append, List.length_cons]
    omega
  | .arr .nil, lvl => by simp [jsonDepth, elemsDepth, dumpJson]
  | .arr (.cons v tl), lvl => by
    have h := elemsDepth_lt_dump (.cons v tl) (lvl + 1)
    simp only [jsonDepth, dumpJson, List.length_append, List.length_cons]
    omega
theorem membersDepth_lt_dump : ∀ (ms : JsonMembers) (lvl : Nat),
    membersDepth ms < (dumpMembers lvl ms).length + 1
  | .nil, lvl => by simp [membersDepth]
  | .cons k v .nil, lvl => by
    have h := jsonDepth_lt_dump v lvl
    simp only [membersDepth, dumpMembers, List.length_append, List.length_cons]
    omega
  | .cons k v (.cons k2 v2 tl), lvl => by
    have h1 := jsonDepth_lt_dump v lvl
    have h2 := membersDepth_lt_dump (.cons k2 v2 tl) lvl
    simp only [membersDepth, dumpMembers, List.length_append, List.length_cons] at h2 ⊢
    omega
theorem elemsDepth_lt_dump : ∀ (xs : JsonList) (lvl : Nat),
    elemsDepth xs < (dumpElems lvl xs).length + 1
  | .nil, lvl => by simp [elemsDepth]
  | .cons v .nil, lvl => by
    have h := jsonDepth_lt_dump v lvl
    simp only [elemsDepth, dumpElems]
    omega
  | .cons v (.cons v2 tl), lvl => by
    have h1 := jsonDepth_lt_dump v lvl
    have h2 := elemsDepth_lt_dump (.cons v2 tl) lvl
    simp only [elemsDepth, dumpElems, List.length_append, List.length_cons] at h2 ⊢
    omega
end

theorem parseValue_ws (g : Nat) (c : Char) (s : List Char) (h : jsonWs c = true) :
    parseValue (g + 1) (c :: s) = parseValue (g + 1) s := by
  simp only [parseValue]
  rw [skipWs_cons_ws c s h]

theorem parseMembers_ws (g : Nat) (c : Char) (s : List Char) (acc : JsonMembers)
    (h : jsonWs c = true) :
    parseMembers (g + 1) (c :: s) acc = parseMembers (g + 1) s acc := by
  simp only [parseMembers]
  rw [skipWs_cons_ws c s h]

theorem parseMembers_ws_append (g : Nat) : ∀ (ws s : List Char) (acc : JsonMembers),
    (∀ c ∈ ws, jsonWs c = true) →
    parseMembers (g + 1) (ws ++ s) acc = parseMembers (g + 1) s acc
  | [], s, acc, _ => rfl
  | c :: t, s, acc, h => by
    rw [List.cons_append, parseMembers_ws g c _ acc (h c (by simp))]
    exact parseMembers_ws_append g t s acc (fun c2 hc2 => h c2 (by simp [hc2]))

theorem parseValue_obj_step (f : Nat) (X : List Char) :
    parseValue (f+1) ('{' :: X) =
      (match skipWs X with
       | [] => parseMembers f [] .nil
       | c2 :: r =>
         if c2 = '}' then some (.obj .nil, r) else parseMembers f (c2 :: r) .nil) := by
  simp only [parseValue]
  rw [skipWs_not_ws '{' X (by decide)]
  rfl

theorem parseValue_str_step (f : Nat) (X : List Char) :
    parseValue (f+1) ('"' :: X) =
      (parseStrAux (X.length + 1) [] X).map (fun p => (.str p.1, p.2)) := by
  simp only [parseValue]
  rw [skipWs_not_ws '"' X (by decide)]
  rfl

theorem parseValue_null_step (f : Nat) (X : List Char) :
    parseValue (f+1) ('n' :: 'u' :: 'l' :: 'l' :: X) = some (.null, X) := by
  simp only [parseValue]
  rw [skipWs_not_ws 'n' _ (by decide)]
  rfl

theorem parseValue_true_step (f : Nat) (X : List Char) :
    parseValue (f+1) ('t' :: 'r' :: 'u' :: 'e' :: X) = some (.bool true, X) := by
  simp only [parseValue]
  rw [skipWs_not_ws 't' _ (by decide)]
  rfl

theorem parseValue_false_step (f : Nat) (X : List Char) :
    parseValue (f+1) ('f' :: 'a' :: 'l' :: 's' :: 'e' :: X) = some (.bool false, X) := by
  simp only [parseValue]
  rw [skipWs_not_ws 'f' _ (by decide)]
  rfl

theorem parseMembers_quote_step (g : Nat) (X : List Char) (acc : JsonMembers) :
    parseMembers (g+1) ('"' :: X) acc =
      (match parseStrAux (X.length + 1) [] X with
       | none => none
       | some (key, r1) =>
         match skipWs r1 with
         | [] => none
         | c2 :: r2 =>
           if c2 = ':' then
             match parseValue g r2 with
             | none => none
             | some (v, r3) =>
               match skipWs r3 with
               | [] => none
               | c3 :: r4 =>
                 if c3 = ',' then parseMembers g r4 (acc.append (.cons key v .nil))
                 else if c3 = '}' then some (.obj (acc.append (.cons key v .nil)), r4)
                 else none
           else none) := by
  simp only [parseMembers]
  rw [skipWs_not_ws '"' X (by decide)]
  rfl

mutual
theorem parseValue_dump : ∀ (j : Json) (lvl f : Nat) (rest : List Char),
    plainJson j = true → jsonDepth j < f + 1 →
    parseValue (f + 1) (dumpJson lvl j ++ rest) = some (j, rest)
  | .null, lvl, f, rest => fun hp hd => parseValue_null_step f rest
  | .bool true, lvl, f, rest => fun hp hd => parseValue_true_step f rest
  | .bool false, lvl, f, rest => fun hp hd => parseValue_false_step f rest
  | .num n, lvl, f, rest => by
    intro hp hd
    simp [plainJson] at hp
  | .arr xs, lvl, f, rest => by
    intro hp hd
    simp [plainJson] at hp
  | .str s, lvl, f, rest => by
    intro hp hd
    show parseValue (f + 1) (('"' :: (escList s.data ++ ['"'])) ++ rest) = _
    simp only [List.cons_append, List.append_assoc, List.nil_append]
    rw [parseValue_str_step]
    rw [parseStrAux_escList s.data _ [] rest (by
      have := escList_len_ge s.data
      simp only [List.length_append, List.length_cons]
      omega)]
    rfl
  | .obj .nil, lvl, f, rest => by
    intro hp hd
    show parseValue (f + 1) (('{' :: '}' :: []) ++ rest) = _
    simp only [List.cons_append, List.nil_append]
    rw [parseValue_obj_step]
    rw [skipWs_not_ws '}' rest (by decide)]
    dsimp only
    rw [if_pos rfl]
  | .obj (.cons k v tl), lvl, f, rest => by
    intro hp hd
    have hdm : membersDepth (.cons k v tl) < f := by
      simp only [jsonDepth] at hd
      omega
    have hf1 : 1 ≤ f := by
      simp only [membersDepth] at hdm
      omega
    obtain ⟨g, rfl⟩ : ∃ g, f = g + 1 := ⟨f - 1, by omega⟩
    show parseValue (g + 1 + 1)
      (('{' :: '\n' :: (jsonIndent (lvl + 1) ++ dumpMembers (lvl + 1) (.cons k v tl) ++
        ('\n' :: (jsonIndent lvl ++ ['}'])))) ++ rest) = _
    simp only [List.cons_append, List.append_assoc, List.nil_append]
    rw [parseValue_obj_step]
    rw [skipWs_cons_ws '\n' _ (by decide),
      skipWs_ws_append (jsonIndent (lvl + 1)) _ (indent_ws (lvl + 1))]
    obtain ⟨z, hz⟩ : ∃ z, dumpMembers (lvl + 1) (.cons k v tl) = '"' :: z := by
      cases tl with
      | nil => exact ⟨_, rfl⟩
      | cons k2 v2 tl2 => exact ⟨_, rfl⟩
    rw [hz, List.cons_append, skipWs_not_ws '"' _ (by decide)]
    dsimp only
    rw [if_neg (by decide)]
    rw [← List.cons_append, ← hz]
    have harr : dumpMembers (lvl + 1) (.cons k v tl) ++ ('\n' :: (jsonIndent lvl ++ '}' :: rest))
        = dumpMembers (lvl + 1) (.cons k v tl) ++ (('\n' :: jsonIndent lvl) ++ '}' :: rest) := by
      simp
    rw [harr]
    rw [parseMembers_dump (.cons k v tl) (lvl + 1) ('\n' :: jsonIndent lvl) g rest .nil hp hdm
      (fun h => JsonMembers.noConfusion h)
      (by
        intro c hc
        rcases List.mem_cons.mp hc with h | h
        · subst h
          rfl
        · exact indent_ws lvl c h)]
    rfl
theorem parseMembers_dump : ∀ (ms : JsonMembers) (lvl : Nat) (ws : List Char) (g : Nat)
      (rest : List Char) (acc : JsonMembers),
    plainMembers ms = true → membersDepth ms < g + 1 → ms ≠ JsonMembers.nil →
    (∀ c ∈ ws, jsonWs c = true) →
    parseMembers (g + 1) (dumpMembers lvl ms ++ (ws ++ '}' :: rest)) acc
      = some (.obj (acc.append ms), rest)
  | .nil, lvl, ws, g, rest, acc => by
    intro hp hd hne hws
    exact absurd rfl hne
  | .cons k v .nil, lvl, ws, g, rest, acc => by
    intro hp hd hne hws
    have hpv : plainJson v = true := by
      simp [plainMembers] at hp
      exact hp
    have hdv : jsonDepth v < g := by
      simp only [membersDepth] at hd
      omega
    obtain ⟨g2, rfl⟩ : ∃ g2, g = g2 + 1 := ⟨g - 1, by omega⟩
    show parseMembers (g2 + 1 + 1)
      (('"' :: (escList k.data ++ ('"' :: ':' :: ' ' :: dumpJson lvl v))) ++
        (ws ++ '}' :: rest)) acc = _
    simp only [List.cons_append, List.append_assoc, List.nil_append]
    rw [parseMembers_quote_step]
    rw [parseStrAux_escList k.data _ []
      (':' :: ' ' :: (dumpJson lvl v ++ (ws ++ '}' :: rest))) (by
        have := escList_len_ge k.data
        simp only [List.length_append, List.length_cons]
        omega)]
    simp only [List.reverse_nil, List.nil_append]
    rw [skipWs_not_ws ':' _ (by decide)]
    dsimp only
    rw [if_pos rfl]
    rw [parseValue_ws g2 ' ' _ (by decide)]
    rw [parseValue_dump v lvl g2 (ws ++ '}' :: rest) hpv (by omega)]
    dsimp only
    rw [skipWs_ws_append ws _ hws, skipWs_not_ws '}' _ (by decide)]
    dsimp only
    rw [if_neg (by decide), if_pos rfl]
  | .cons k v (.cons k2 v2 tl), lvl, ws, g, rest, acc => by
    intro hp hd hne hws
    have hpv : plainJson v = true := by
      simp [plainMembers] at hp
      exact hp.1
    have hptl : plainMembers (.cons k2 v2 tl) = true := by
      simp [plainMembers] at hp ⊢
      exact hp.2
    have hdv : jsonDepth v < g := by
      simp only [membersDepth] at hd
      omega
    have hdtl : membersDepth (.cons k2 v2 tl) < g := by
      simp only [membersDepth] at hd ⊢
      omega
    obtain ⟨g2, rfl⟩ : ∃ g2, g = g2 + 1 := ⟨g - 1, by omega⟩
    show parseMembers (g2 + 1 + 1)
      (('"' :: (escList k.data ++ ('"' :: ':' :: ' ' :: dumpJson lvl v ++
        (',' :: '\n' :: (jsonIndent lvl ++ dumpMembers lvl (.cons k2 v2 tl)))))) ++
        (ws ++ '}' :: rest)) acc = _
    simp only [List.cons_append, List.append_assoc, List.nil_append]
    rw [parseMembers_quote_step]
    rw [parseStrAux_escList k.data _ []
      (':' :: ' ' :: (dumpJson lvl v ++ (',' :: '\n' :: (jsonIndent lvl ++
        (dumpMembers lvl (.cons k2 v2 tl) ++ (ws ++ '}' :: rest)))))) (by
        have := escList_len_ge k.data
        simp only [List.length_append, List.length_cons]
        omega)]
    simp only [List.reverse_nil, List.nil_append]
    rw [skipWs_not_ws ':' _ (by decide)]
    dsimp only
    rw [if_pos rfl]
    rw [parseValue_ws g2 ' ' _ (by decide)]
    rw [parseValue_dump v lvl g2 (',' :: '\n' :: (jsonIndent lvl ++
      (dumpMembers lvl (.cons k2 v2 tl) ++ (ws ++ '}' :: rest)))) hpv (by omega)]
    dsimp only
    rw [skipWs_not_ws ',' _ (by decide)]
    dsimp only
    rw [if_pos rfl]
    rw [parseMembers_ws g2 '\n' _ _ (by decide)]
    rw [parseMembers_ws_append g2 (jsonIndent lvl) _ _ (indent_ws lvl)]
    rw [parseMembers_dump (.cons k2 v2 tl) lvl ws g2 rest
      (acc.append (.cons (String.mk k.data) v .nil)) hptl hdtl
      (fun h => JsonMembers.noConfusion h) hws]
    rw [members_append_assoc]
    rfl
end

theorem configToJson_plain (cfg : Config) : plainJson (configToJson cfg) = true := by
  simp [configToJson, plainJson, plainMembers]

theorem json_loads_dump (j : Json) (hp : plainJson j = true) :
    json_loads (save_config j) = some j := by
  unfold json_loads save_config
  have hdd : (String.mk (dumpJson 0 j)).data = dumpJson 0 j := rfl
  rw [hdd]
  have h2 : parseValue ((dumpJson 0 j).length + 1) (dumpJson 0 j) = some (j, []) := by
    have h3 := parseValue_dump j 0 ((dumpJson 0 j).length) [] hp
      (by
        have := jsonDepth_lt_dump j 0
        omega)
    rwa [List.append_nil] at h3
  rw [h2]
  rfl

/-! ## C7: config round trip -/

/-- C7: for every Config record (the shape of spec section 3, with
arbitrary string fields), saving it with `save_config` and reloading
the written file with `load_config` yields a JSON value equal in all
fields to the one saved, and performs no further write. -/
theorem config_save_load_roundtrip (cfg : Config) :
    load_config (some (save_config (configToJson cfg))) = (.ok (configToJson cfg), none) := by
  unfold load_config
  dsimp only
  rw [json_loads_dump (configToJson cfg) (configToJson_plain cfg)]
